import Mathlib

/-!
# Verification of the BOSSWAVE core against its specification

This file gives a shallow embedding, in Lean 4, of the parts of the
BOSSWAVE message-bus implementation (Go) that its specification makes
claims about:

* the URI suffix algebra (`util.AnalyzeSuffix`, `util.RestrictBy`),
* the access-chain analysis (`core.AnalyzeAccessDOTChain`),
* the subscription trie and publish fan-out (`core` terminus),
* the chain builder (`api.ChainBuilder.Build`),
* the resolution cache (`api` resolution data), and
* the wire-object parsers (`objects.NewDOT`, `objects.NewDChain`,
  `objects.LoadBosswaveObject`).

Each Go function is translated into a total, executable Lean function
operating on the same data (strings are Lean `String`s, byte buffers are
`List Nat`, verifying keys and hashes are abstracted to `Nat` identifiers
with the convention that equal identifiers model equal byte strings).
Go's `recover`-based panic handling in the parsers is modelled by an
explicit `panic`-outcome constructor which the recovering wrapper maps to
an error, exactly as the `defer`/`recover` blocks do.

Theorems named `C1_…` through `C10_…` settle the frozen claims.
-/

namespace BW2

/-! ## Cells: `strings.Split(s, "/")` and `strings.Join(cells, "/")`

The Go URI code works on the list of `/`-separated cells of a suffix.
`goSplitChars`/`goSplit` model `strings.Split(s, "/")` (every string
splits into at least one cell; empty cells are kept), and `joinCells`
models `strings.Join(cells, "/")`. -/

/-- Split a character list at `'/'`, keeping empty cells, as Go
`strings.Split` does (the result is always nonempty). -/
def goSplitChars : List Char → List (List Char)
  | [] => [[]]
  | c :: cs =>
    if c = '/' then [] :: goSplitChars cs
    else
      match goSplitChars cs with
      | r :: rs => (c :: r) :: rs
      | [] => [[c]]

/-- Model of Go `strings.Split(s, "/")`. -/
def goSplit (s : String) : List String :=
  (goSplitChars s.data).map String.mk

/-- Model of Go `strings.Join(cells, "/")`. -/
def joinCells : List String → String
  | [] => ""
  | [c] => c
  | c :: rest => c ++ "/" ++ joinCells rest

/-- Character-level companion of `joinCells`. -/
def joinCharCells : List (List Char) → List Char
  | [] => []
  | [c] => c
  | c :: rest => c ++ '/' :: joinCharCells rest

theorem goSplitChars_ne_nil (cs : List Char) : goSplitChars cs ≠ [] := by
  induction cs with
  | nil => simp [goSplitChars]
  | cons c cs ih =>
    simp only [goSplitChars]
    split
    · simp
    · cases h : goSplitChars cs with
      | nil => simp
      | cons r rs => simp

/-- Character-level inverse: joining the split of `cs` with `'/'`
recovers `cs`. -/
theorem joinCharCells_goSplitChars (cs : List Char) :
    joinCharCells (goSplitChars cs) = cs := by
  induction cs with
  | nil => rfl
  | cons c cs ih =>
    simp only [goSplitChars]
    split
    · rename_i hc
      subst hc
      cases h : goSplitChars cs with
      | nil => exact absurd h (goSplitChars_ne_nil cs)
      | cons r rs =>
        rw [h] at ih
        simpa [joinCharCells] using ih
    · cases h : goSplitChars cs with
      | nil => exact absurd h (goSplitChars_ne_nil cs)
      | cons r rs =>
        rw [h] at ih
        cases rs with
        | nil => simpa [joinCharCells] using ih
        | cons r2 rs2 => simpa [joinCharCells] using ih

theorem data_joinCells_map_mk (l : List (List Char)) :
    (joinCells (l.map String.mk)).data = joinCharCells l := by
  induction l with
  | nil => rfl
  | cons c rest ih =>
    cases rest with
    | nil => rfl
    | cons c2 rest2 =>
      simp only [List.map, joinCells, joinCharCells]
      rw [String.data_append, String.data_append]
      simp only [List.map] at ih
      rw [ih]
      simp [joinCharCells]

/-- `strings.Join(strings.Split(s, "/"), "/")` is the identity. -/
theorem joinCells_goSplit (s : String) : joinCells (goSplit s) = s := by
  have h := data_joinCells_map_mk (goSplitChars s.data)
  rw [joinCharCells_goSplitChars] at h
  cases s with
  | mk data => exact congrArg String.mk h

/-! ## `util.RestrictBy`

`RestrictBy(from, by)` intersects two URI patterns.  The Go function
works with four cursors into the two cell arrays: front cursors `fi`,
`bi` (only increased) and back cursors `fni`, `bni` (only decreased,
possibly to `-1`, hence modelled as `Int`).  Its two symmetric-rule
matching loops (phase 1 on the fronts, phase 2 on the backs) advance
both cursors in lockstep, so they are modelled by the single recursive
function `matchCells`; the phase 3/4 `for` loops consume a contiguous
run of non-`*` cells of one window and are modelled by `List.takeWhile`
over the window (`seg`), with the loop guards preserved exactly. -/

/-- The common cell-matching loop of phases 1 and 2 of `RestrictBy`:
consume cells of both lists in lockstep while the heads match, emitting
the more specific cell (`f` when `f == b` or `b == "+"`; `b` when
`f == "+"`). -/
def matchCells : List String → List String → List String
  | f :: fs, b :: bs =>
    if f = b ∨ (b = "+" ∧ f ≠ "*") then f :: matchCells fs bs
    else if f = "+" ∧ b ≠ "*" then b :: matchCells fs bs
    else []
  | _, _ => []

/-- Cell of `l` at integer index `i` (out-of-range reads give `""`,
which is distinct from every URI cell; all Go reads are in-bounds). -/
def cAt (l : List String) (i : Int) : String :=
  if i < 0 then "" else l.getD i.toNat ""

/-- The window `l[i..j]` of a cell array (empty when `j < i`). -/
def seg (l : List String) (i j : Int) : List String :=
  (l.take (j + 1).toNat).drop i.toNat

/-- Phase 3 of `RestrictBy` (star absorbs concrete front cells):
given front cursors `fi = bi = k` and back cursors `fni`, `bni`,
returns the cells appended to `fout` and the updated front cursors. -/
def rbPhase3 (fp bp : List String) (k : Nat) (fni bni : Int) :
    List String × Int × Int :=
  if k < fp.length ∧ cAt fp k = "*" then
    let t := (seg bp k bni).takeWhile (fun c => c ≠ "*")
    (t, (k : Int), (k : Int) + t.length)
  else if k < bp.length ∧ cAt bp k = "*" then
    let t := (seg fp k fni).takeWhile (fun c => c ≠ "*")
    (t, (k : Int) + t.length, (k : Int))
  else ([], (k : Int), (k : Int))

/-- Phase 4 of `RestrictBy` (star absorbs concrete back cells):
returns the cells appended to `bout` and the updated back cursors. -/
def rbPhase4 (fp bp : List String) (fi bi fni bni : Int) :
    List String × Int × Int :=
  if 0 ≤ fni ∧ cAt fp fni = "*" then
    let t := ((seg bp bi bni).reverse).takeWhile (fun c => c ≠ "*")
    (t, fni, bni - t.length)
  else if 0 ≤ bni ∧ cAt bp bni = "*" then
    let t := ((seg fp fi fni).reverse).takeWhile (fun c => c ≠ "*")
    (t, fni - t.length, bni)
  else ([], fni, bni)

/-- Cell-level body of `util.RestrictBy`: `none` models the Go
`return "", false`, `some cells` models `return strings.Join(...), true`
(the emitted cells are `fout ++ reverse bout`). -/
def restrictCells (fp bp : List String) : Option (List String) :=
  -- phase 1: emit matching prefix
  let pre := matchCells fp bp
  let k := pre.length
  -- phase 2: emit matching suffix (between the front cursors and the ends)
  let suf := matchCells ((fp.drop k).reverse) ((bp.drop k).reverse)
  let j := suf.length
  let fni : Int := (fp.length : Int) - 1 - j
  let bni : Int := (bp.length : Int) - 1 - j
  -- phase 3: emit front
  let p3 := rbPhase3 fp bp k fni bni
  let fout := pre ++ p3.1
  let fi := p3.2.1
  let bi := p3.2.2
  -- phase 4: emit back
  let p4 := rbPhase4 fp bp fi bi fni bni
  let bout := suf ++ p4.1
  let fni4 := p4.2.1
  let bni4 := p4.2.2
  -- phase 5: emit star if they both have it
  if fi = fni4 ∧ cAt fp fi = "*" ∧ bi = bni4 ∧ cAt bp bi = "*" then
    some (fout ++ ["*"] ++ bout.reverse)
  else
    -- remove any stars
    let fi5 := if fi < (fp.length : Int) ∧ cAt fp fi = "*" then fi + 1 else fi
    let bi5 := if bi < (bp.length : Int) ∧ cAt bp bi = "*" then bi + 1 else bi
    if (fi5 = fni4 + 1 ∨ fi5 = (fp.length : Int)) ∧
       (bi5 = bni4 + 1 ∨ bi5 = (bp.length : Int)) then
      some (fout ++ bout.reverse)
    else
      none

/-- Embeds `util.RestrictBy(from, by)`: the most specific topic
consistent with both patterns, or failure. -/
def RestrictBy (fromU byU : String) : String × Bool :=
  match restrictCells (goSplit fromU) (goSplit byU) with
  | some cells => (joinCells cells, true)
  | none => ("", false)

/-! ### `RestrictBy` is symmetric in its two arguments

The two emitting loops of phases 1/2 emit the same cells whichever side
is `from` (`matchCells_comm`), and phases 3–5 are role-symmetric: the
absorbing loops of phases 3/4 consume cells of whichever side is not at
a `*`, and consume nothing when both are (the head/last of the window
is then itself `*`). -/

theorem matchCells_comm : ∀ f b : List String, matchCells f b = matchCells b f
  | [], [] => rfl
  | [], _ :: _ => rfl
  | _ :: _, [] => rfl
  | f :: fs, b :: bs => by
    have ih := matchCells_comm fs bs
    simp only [matchCells]
    by_cases hfb : f = b
    · subst hfb
      simp [ih]
    · have hbf : ¬ b = f := fun h => hfb h.symm
      by_cases hb : b = "+" <;> by_cases hf : f = "+" <;>
        by_cases hfs : f = "*" <;> by_cases hbs : b = "*" <;>
        simp_all [ih]

theorem cAt_lt_length (l : List String) (i : Int) (h : cAt l i ≠ "") :
    0 ≤ i ∧ i.toNat < l.length := by
  unfold cAt at h
  by_cases h0 : i < 0
  · simp [h0] at h
  · refine ⟨by omega, ?_⟩
    by_contra hlen
    rw [if_neg h0, List.getD_eq_getElem?_getD, List.getElem?_eq_none (by omega)] at h
    simp at h

theorem takeWhile_seg_of_head_star (l : List String) (k : Nat) (m : Int)
    (hk : cAt l (k : Int) = "*") :
    (seg l (k : Int) m).takeWhile (fun c => c ≠ "*") = [] := by
  cases h : seg l (k : Int) m with
  | nil => simp
  | cons c t =>
    have h1 : (seg l (k : Int) m).head? = some c := by rw [h]; rfl
    unfold seg at h1
    rw [List.head?_drop, List.getElem?_take] at h1
    have hc : c = "*" := by
      split at h1
      · have h2 : cAt l (k : Int) = c := by
          unfold cAt
          rw [if_neg (by omega), List.getD_eq_getElem?_getD]
          simp only [Int.toNat_natCast] at h1 ⊢
          rw [h1]
          rfl
        rw [hk] at h2
        exact h2.symm
      · simp at h1
    rw [hc]
    simp [List.takeWhile_cons]

theorem takeWhile_revseg_of_last_star (l : List String) (i m : Int)
    (hm : 0 ≤ m) (hk : cAt l m = "*") :
    ((seg l i m).reverse).takeWhile (fun c => c ≠ "*") = [] := by
  have hlen := cAt_lt_length l m (by rw [hk]; simp)
  cases h : (seg l i m).reverse with
  | nil => simp
  | cons c t =>
    have h1 : (seg l i m).reverse.head? = some c := by rw [h]; rfl
    rw [List.head?_reverse] at h1
    unfold seg at h1
    rw [List.getLast?_drop] at h1
    have hc : c = "*" := by
      split at h1
      · simp at h1
      · rw [List.getLast?_take] at h1
        have hN : (m + 1).toNat = m.toNat + 1 := by omega
        rw [hN] at h1
        have hsome : l[m.toNat]? = some (cAt l m) := by
          unfold cAt
          rw [if_neg (by omega), List.getD_eq_getElem?_getD]
          rw [List.getElem?_eq_getElem hlen.2]
          rfl
        rw [if_neg (by omega)] at h1
        simp only [Nat.add_sub_cancel] at h1
        rw [hsome, hk] at h1
        simp at h1
        exact h1.symm
    rw [hc]
    simp [List.takeWhile_cons]

theorem rbPhase3_swap (fp bp : List String) (k : Nat) (fni bni : Int) :
    rbPhase3 bp fp k bni fni =
      ((rbPhase3 fp bp k fni bni).1, (rbPhase3 fp bp k fni bni).2.2,
       (rbPhase3 fp bp k fni bni).2.1) := by
  unfold rbPhase3
  by_cases h1 : k < fp.length ∧ cAt fp (k : Int) = "*" <;>
    by_cases h2 : k < bp.length ∧ cAt bp (k : Int) = "*"
  · have t1 := takeWhile_seg_of_head_star bp k bni h2.2
    have t2 := takeWhile_seg_of_head_star fp k fni h1.2
    simp only [if_pos h1, if_pos h2]
    rw [t1, t2]
    simp
  · simp only [if_pos h1, if_neg h2]
  · simp only [if_neg h1, if_pos h2]
  · simp only [if_neg h1, if_neg h2]

theorem rbPhase4_swap (fp bp : List String) (fi bi fni bni : Int) :
    rbPhase4 bp fp bi fi bni fni =
      ((rbPhase4 fp bp fi bi fni bni).1, (rbPhase4 fp bp fi bi fni bni).2.2,
       (rbPhase4 fp bp fi bi fni bni).2.1) := by
  unfold rbPhase4
  by_cases h1 : 0 ≤ fni ∧ cAt fp fni = "*" <;>
    by_cases h2 : 0 ≤ bni ∧ cAt bp bni = "*"
  · have t1 := takeWhile_revseg_of_last_star bp bi bni h2.1 h2.2
    have t2 := takeWhile_revseg_of_last_star fp fi fni h1.1 h1.2
    simp only [if_pos h1, if_pos h2]
    rw [t1, t2]
    simp
  · simp only [if_pos h1, if_neg h2]
  · simp only [if_neg h1, if_pos h2]
  · simp only [if_neg h1, if_neg h2]

theorem restrictCells_comm (fp bp : List String) :
    restrictCells fp bp = restrictCells bp fp := by
  simp only [restrictCells]
  rw [matchCells_comm bp fp]
  rw [matchCells_comm ((bp.drop (matchCells fp bp).length).reverse)
        ((fp.drop (matchCells fp bp).length).reverse)]
  set pre := matchCells fp bp with hpre
  set suf := matchCells ((fp.drop pre.length).reverse) ((bp.drop pre.length).reverse)
    with hsuf
  set fni : Int := (fp.length : Int) - 1 - suf.length with hfni
  set bni : Int := (bp.length : Int) - 1 - suf.length with hbni
  rw [rbPhase3_swap fp bp pre.length fni bni]
  set p3 := rbPhase3 fp bp pre.length fni bni with hp3
  dsimp only
  rw [rbPhase4_swap fp bp p3.2.1 p3.2.2 fni bni]
  set p4 := rbPhase4 fp bp p3.2.1 p3.2.2 fni bni with hp4
  dsimp only
  refine if_congr (by tauto) rfl (if_congr (by tauto) rfl rfl)

/-- `util.RestrictBy` is commutative (exactly, not only up to canonical
form). -/
theorem RestrictBy_comm (a b : String) : RestrictBy a b = RestrictBy b a := by
  unfold RestrictBy
  rw [restrictCells_comm]

theorem matchCells_self (l : List String) : matchCells l l = l := by
  induction l with
  | nil => rfl
  | cons c cs ih => simp [matchCells, ih]

/-- `util.RestrictBy` is idempotent: restricting any suffix by itself
succeeds and returns the suffix unchanged. -/
theorem restrictCells_self (l : List String) : restrictCells l l = some l := by
  simp only [restrictCells, matchCells_self, List.drop_length, List.reverse_nil,
    List.length_nil, Nat.cast_zero, sub_zero]
  have hstar : cAt l (l.length : Int) = "" := by
    unfold cAt
    rw [if_neg (by omega), List.getD_eq_getElem?_getD,
      List.getElem?_eq_none (by simp)]
    rfl
  have h3 : rbPhase3 l l l.length ((l.length : Int) - 1) ((l.length : Int) - 1) =
      ([], (l.length : Int), (l.length : Int)) := by
    unfold rbPhase3
    rw [if_neg (by intro h; exact absurd h.1 (by omega)),
        if_neg (by intro h; exact absurd h.1 (by omega))]
  rw [h3]
  dsimp only
  have hseg : seg l ((l.length : Int)) ((l.length : Int) - 1) = [] := by
    unfold seg
    apply List.drop_eq_nil_of_le
    trans l.length
    · apply List.length_take_le'
    · omega
  have h4 : rbPhase4 l l ((l.length : Int)) ((l.length : Int))
      ((l.length : Int) - 1) ((l.length : Int) - 1) =
      ([], (l.length : Int) - 1, (l.length : Int) - 1) := by
    unfold rbPhase4
    rw [hseg]
    split
    · simp
    · rfl
  rw [h4]
  dsimp only
  rw [hstar]
  rw [if_neg (fun h => absurd h.1 (by omega))]
  have hrm : (if (l.length : Int) < (l.length : Int) ∧ ("" : String) = "*"
      then (l.length : Int) + 1 else (l.length : Int)) = (l.length : Int) :=
    if_neg (fun h => absurd h.2 (by decide))
  rw [hrm]
  rw [if_pos ⟨Or.inr rfl, Or.inr rfl⟩]
  simp

theorem RestrictBy_self (a : String) : RestrictBy a a = (a, true) := by
  unfold RestrictBy
  rw [restrictCells_self]
  dsimp only
  rw [joinCells_goSplit]

/-! ## `util.AnalyzeSuffix`

`AnalyzeSuffix(uri)` splits the suffix at `/` and scans the cells,
carrying the `hasStar`/`hasPlus`/`hasDollar`/`hasBang` flags; each early
`return` in the Go loop yields `valid = false` together with the current
flag values.  Go indexes bytes; the model reads characters, which agrees
on all ASCII suffixes (and any non-ASCII character is rejected by both,
being outside the permitted set). -/

/-- The result quintuple of `util.AnalyzeSuffix`. -/
structure ASResult where
  valid : Bool
  star : Bool
  plus : Bool
  dollar : Bool
  bang : Bool
deriving DecidableEq, Repr

/-- The permitted cell characters `[0-9a-zA-Z_,().-]` of
`util.AnalyzeSuffix`. -/
def permittedChar (k : Char) : Bool :=
  decide (('0' ≤ k ∧ k ≤ '9') ∨ ('a' ≤ k ∧ k ≤ 'z') ∨ ('A' ≤ k ∧ k ≤ 'Z') ∨
    k = '-' ∨ k = '_' ∨ k = ',' ∨ k = '(' ∨ k = ')' ∨ k = '.')

/-- The cell loop of `util.AnalyzeSuffix`, carrying the four feature
flags.  The branch on `len(c)` and the byte reads `c[0]`, `c[1:]` of the
Go code are the pattern match on the cell's character list. -/
def asLoop : List String → Bool → Bool → Bool → Bool → ASResult
  | [], st, pl, dl, bg => ⟨true, st, pl, dl, bg⟩
  | c :: rest, st, pl, dl, bg =>
    match c.data with
    | [] => ⟨false, st, pl, dl, bg⟩
    | [k] =>
      if k = '*' then
        (if st then ⟨false, st, pl, dl, bg⟩ else asLoop rest true pl dl bg)
      else if k = '+' then asLoop rest st true dl bg
      else if k = '!' then ⟨false, st, pl, dl, bg⟩
      else if k = '$' then asLoop rest st pl true bg
      else if permittedChar k then asLoop rest st pl dl bg
      else ⟨false, st, pl, dl, bg⟩
    | k :: k2 :: ks =>
      if k = '!' then
        if bg then ⟨false, st, pl, dl, bg⟩
        else if (k2 :: ks).all permittedChar then asLoop rest st pl dl true
        else ⟨false, st, pl, dl, true⟩
      else
        if (k :: k2 :: ks).all permittedChar then asLoop rest st pl dl bg
        else ⟨false, st, pl, dl, bg⟩

/-- Embeds `util.AnalyzeSuffix(uri)`. -/
def AnalyzeSuffix (uri : String) : ASResult :=
  asLoop (goSplit uri) false false false false

/-! ### Declarative characterization of `AnalyzeSuffix` -/

/-- A cell is well formed in isolation: a special cell `*`, `+`, `$`, a
nonempty word of permitted characters, or `!` followed by such a word
(the empty cell and the lone `!` are rejected). -/
def cellOK (c : String) : Bool :=
  match c.data with
  | [] => false
  | [k] => k = '*' || k = '+' || k = '$' || (decide (k ≠ '!') && permittedChar k)
  | k :: k2 :: ks =>
    if k = '!' then (k2 :: ks).all permittedChar
    else (k :: k2 :: ks).all permittedChar

/-- A cell opening a metadata subtree: at least two characters, the
first of which is `!`. -/
def isBangCell (c : String) : Bool :=
  match c.data with
  | k :: _ :: _ => k = '!'
  | _ => false

theorem asLoop_valid_iff (cs : List String) : ∀ st pl dl bg : Bool,
    ((asLoop cs st pl dl bg).valid = true ↔
      (∀ c ∈ cs, cellOK c = true) ∧
      cs.countP (fun c => c = "*") + (if st then 1 else 0) ≤ 1 ∧
      cs.countP isBangCell + (if bg then 1 else 0) ≤ 1) := by
  induction cs with
  | nil =>
    intro st pl dl bg
    cases st <;> cases bg <;> simp [asLoop]
  | cons c rest ih =>
    intro st pl dl bg
    obtain ⟨cd⟩ := c
    have hmkstar : ∀ l : List Char, ((String.mk l : String) = "*") ↔ l = ['*'] := by
      intro l
      constructor
      · intro h
        have h2 := congrArg String.data h
        simpa using h2
      · intro h
        subst h
        rfl
    match cd with
    | [] =>
      have hok : cellOK ⟨[]⟩ = false := rfl
      simp [asLoop, List.forall_mem_cons, hok]
    | [k] =>
      by_cases hstar : k = '*'
      · subst hstar
        have hok : cellOK ⟨['*']⟩ = true := by decide
        have hsd : (decide ((⟨['*']⟩ : String) = "*")) = true := by decide
        have hbd : isBangCell ⟨['*']⟩ = false := rfl
        cases st with
        | true =>
          simp [asLoop, List.countP_cons, hsd, List.forall_mem_cons]
        | false =>
          change (asLoop rest true pl dl bg).valid = true ↔ _
          rw [ih]
          simp [List.countP_cons, hsd, hbd, List.forall_mem_cons, hok]
      · by_cases hplus : k = '+'
        · subst hplus
          have hok : cellOK ⟨['+']⟩ = true := by decide
          have hsd : (decide ((⟨['+']⟩ : String) = "*")) = false := by decide
          have hbd : isBangCell ⟨['+']⟩ = false := rfl
          change (asLoop rest st true dl bg).valid = true ↔ _
          rw [ih]
          simp [List.countP_cons, hsd, hbd, List.forall_mem_cons, hok]
        by_cases hbang1 : k = '!'
        · subst hbang1
          have hok : cellOK ⟨['!']⟩ = false := by decide
          simp [asLoop, List.forall_mem_cons, hok]
        by_cases hdollar : k = '$'
        · subst hdollar
          have hok : cellOK ⟨['$']⟩ = true := by decide
          have hsd : (decide ((⟨['$']⟩ : String) = "*")) = false := by decide
          have hbd : isBangCell ⟨['$']⟩ = false := rfl
          change (asLoop rest st pl true bg).valid = true ↔ _
          rw [ih]
          simp [List.countP_cons, hsd, hbd, List.forall_mem_cons, hok]
        · have hsd : (decide ((⟨[k]⟩ : String) = "*")) = false := by
            simp [hmkstar, hstar]
          have hbd : isBangCell ⟨[k]⟩ = false := rfl
          by_cases hperm : permittedChar k = true
          · have hok : cellOK ⟨[k]⟩ = true := by
              simp [cellOK, hbang1, hperm]
            simp only [asLoop]
            rw [if_neg hstar, if_neg hplus, if_neg hbang1, if_neg hdollar,
              if_pos hperm, ih]
            simp [List.countP_cons, hsd, hbd, List.forall_mem_cons, hok]
          · have hok : cellOK ⟨[k]⟩ = false := by
              simp [cellOK, hstar, hplus, hdollar, hperm]
            simp only [asLoop]
            rw [if_neg hstar, if_neg hplus, if_neg hbang1, if_neg hdollar,
              if_neg hperm]
            simp [List.forall_mem_cons, hok]
    | k :: k2 :: ks =>
      have hsd : (decide ((⟨k :: k2 :: ks⟩ : String) = "*")) = false := by
        simp [hmkstar]
      by_cases hbang : k = '!'
      · subst hbang
        have hbd : isBangCell ⟨'!' :: k2 :: ks⟩ = true := by simp [isBangCell]
        cases bg with
        | true =>
          simp [asLoop, List.countP_cons, hbd, List.forall_mem_cons]
        | false =>
          by_cases hall : (k2 :: ks).all permittedChar = true
          · have hok : cellOK ⟨'!' :: k2 :: ks⟩ = true := by
              simp only [cellOK]
              rw [if_pos True.intro]
              exact hall
            rw [show asLoop (⟨'!' :: k2 :: ks⟩ :: rest) st pl dl false =
                  (if (k2 :: ks).all permittedChar = true then asLoop rest st pl dl true
                   else ⟨false, st, pl, dl, true⟩) from rfl,
                if_pos hall, ih]
            simp [List.countP_cons, hsd, hbd, List.forall_mem_cons, hok]
          · have hok : cellOK ⟨'!' :: k2 :: ks⟩ = false := by
              simp only [cellOK]
              rw [if_pos True.intro]
              exact Bool.eq_false_iff.mpr hall
            rw [show asLoop (⟨'!' :: k2 :: ks⟩ :: rest) st pl dl false =
                  (if (k2 :: ks).all permittedChar = true then asLoop rest st pl dl true
                   else ⟨false, st, pl, dl, true⟩) from rfl,
                if_neg hall]
            simp [List.forall_mem_cons, hok]
      · have hbd : isBangCell ⟨k :: k2 :: ks⟩ = false := by
          simp [isBangCell, hbang]
        by_cases hall : (k :: k2 :: ks).all permittedChar = true
        · have hok : cellOK ⟨k :: k2 :: ks⟩ = true := by
            simp only [cellOK]
            rw [if_neg hbang]
            exact hall
          simp only [asLoop]
          rw [if_neg hbang, if_pos hall, ih]
          simp [List.countP_cons, hsd, hbd, List.forall_mem_cons, hok]
        · have hok : cellOK ⟨k :: k2 :: ks⟩ = false := by
            simp only [cellOK]
            rw [if_neg hbang]
            exact Bool.eq_false_iff.mpr hall
          simp only [asLoop]
          rw [if_neg hbang, if_neg hall]
          simp [List.forall_mem_cons, hok]

/-- For accepted suffixes the four feature flags report exactly which
features occur among the cells (each flag is monotone in its seed). -/
theorem asLoop_flags (cs : List String) : ∀ st pl dl bg : Bool,
    (asLoop cs st pl dl bg).valid = true →
      (asLoop cs st pl dl bg).star = (st || cs.any (fun c => c = "*")) ∧
      (asLoop cs st pl dl bg).plus = (pl || cs.any (fun c => c = "+")) ∧
      (asLoop cs st pl dl bg).dollar = (dl || cs.any (fun c => c = "$")) ∧
      (asLoop cs st pl dl bg).bang = (bg || cs.any isBangCell) := by
  induction cs with
  | nil =>
    intro st pl dl bg _
    simp [asLoop]
  | cons c rest ih =>
    intro st pl dl bg hvalid
    obtain ⟨cd⟩ := c
    match cd with
    | [] =>
      simp [asLoop] at hvalid
    | [k] =>
      by_cases hstar : k = '*'
      · subst hstar
        cases st with
        | true => simp [asLoop] at hvalid
        | false =>
          have hv : (asLoop rest true pl dl bg).valid = true := hvalid
          have h := ih true pl dl bg hv
          have hds : (decide ((⟨['*']⟩ : String) = "*")) = true := by decide
          have hdp : (decide ((⟨['*']⟩ : String) = "+")) = false := by decide
          have hdd : (decide ((⟨['*']⟩ : String) = "$")) = false := by decide
          have hdb : isBangCell ⟨['*']⟩ = false := rfl
          simpa [asLoop, List.any_cons, hds, hdp, hdd, hdb] using h
      · by_cases hplus : k = '+'
        · subst hplus
          have hv : (asLoop rest st true dl bg).valid = true := hvalid
          have h := ih st true dl bg hv
          have hds : (decide ((⟨['+']⟩ : String) = "*")) = false := by decide
          have hdp : (decide ((⟨['+']⟩ : String) = "+")) = true := by decide
          have hdd : (decide ((⟨['+']⟩ : String) = "$")) = false := by decide
          have hdb : isBangCell ⟨['+']⟩ = false := rfl
          simpa [asLoop, List.any_cons, hds, hdp, hdd, hdb] using h
        by_cases hbang1 : k = '!'
        · subst hbang1
          simp [asLoop] at hvalid
        by_cases hdollar : k = '$'
        · subst hdollar
          have hv : (asLoop rest st pl true bg).valid = true := hvalid
          have h := ih st pl true bg hv
          have hds : (decide ((⟨['$']⟩ : String) = "*")) = false := by decide
          have hdp : (decide ((⟨['$']⟩ : String) = "+")) = false := by decide
          have hdd : (decide ((⟨['$']⟩ : String) = "$")) = true := by decide
          have hdb : isBangCell ⟨['$']⟩ = false := rfl
          simpa [asLoop, List.any_cons, hds, hdp, hdd, hdb] using h
        · have hmk : ∀ (l : List Char) (t : String), ((String.mk l : String) = t) ↔ l = t.data := by
            intro l t
            constructor
            · intro h
              simpa using congrArg String.data h
            · intro h
              cases t
              exact congrArg String.mk h
          have hds : (decide ((⟨[k]⟩ : String) = "*")) = false := by
            simp [hmk, hstar]
          have hdp : (decide ((⟨[k]⟩ : String) = "+")) = false := by
            simp [hmk, hplus]
          have hdd : (decide ((⟨[k]⟩ : String) = "$")) = false := by
            simp [hmk, hdollar]
          have hdb : isBangCell ⟨[k]⟩ = false := rfl
          by_cases hperm : permittedChar k = true
          · have hsel : asLoop (⟨[k]⟩ :: rest) st pl dl bg = asLoop rest st pl dl bg := by
              simp only [asLoop]
              rw [if_neg hstar, if_neg hplus, if_neg hbang1, if_neg hdollar, if_pos hperm]
            rw [hsel] at hvalid ⊢
            have h := ih st pl dl bg hvalid
            simpa [List.any_cons, hds, hdp, hdd, hdb] using h
          · have hsel : asLoop (⟨[k]⟩ :: rest) st pl dl bg =
                ⟨false, st, pl, dl, bg⟩ := by
              simp only [asLoop]
              rw [if_neg hstar, if_neg hplus, if_neg hbang1, if_neg hdollar, if_neg hperm]
            rw [hsel] at hvalid
            simp at hvalid
    | k :: k2 :: ks =>
      have hmk : ∀ (l : List Char) (t : String), ((String.mk l : String) = t) ↔ l = t.data := by
        intro l t
        constructor
        · intro h
          simpa using congrArg String.data h
        · intro h
          cases t
          exact congrArg String.mk h
      have hds : (decide ((⟨k :: k2 :: ks⟩ : String) = "*")) = false := by
        simp [hmk]
      have hdp : (decide ((⟨k :: k2 :: ks⟩ : String) = "+")) = false := by
        simp [hmk]
      have hdd : (decide ((⟨k :: k2 :: ks⟩ : String) = "$")) = false := by
        simp [hmk]
      by_cases hbang : k = '!'
      · subst hbang
        have hdb : isBangCell ⟨'!' :: k2 :: ks⟩ = true := by simp [isBangCell]
        cases bg with
        | true => simp [asLoop] at hvalid
        | false =>
          by_cases hall : (k2 :: ks).all permittedChar = true
          · have hsel : asLoop (⟨'!' :: k2 :: ks⟩ :: rest) st pl dl false =
                asLoop rest st pl dl true := by
              rw [show asLoop (⟨'!' :: k2 :: ks⟩ :: rest) st pl dl false =
                    (if (k2 :: ks).all permittedChar = true then asLoop rest st pl dl true
                     else ⟨false, st, pl, dl, true⟩) from rfl, if_pos hall]
            rw [hsel] at hvalid ⊢
            have h := ih st pl dl true hvalid
            simpa [List.any_cons, hds, hdp, hdd, hdb] using h
          · have hsel : asLoop (⟨'!' :: k2 :: ks⟩ :: rest) st pl dl false =
                ⟨false, st, pl, dl, true⟩ := by
              rw [show asLoop (⟨'!' :: k2 :: ks⟩ :: rest) st pl dl false =
                    (if (k2 :: ks).all permittedChar = true then asLoop rest st pl dl true
                     else ⟨false, st, pl, dl, true⟩) from rfl, if_neg hall]
            rw [hsel] at hvalid
            simp at hvalid
      · have hdb : isBangCell ⟨k :: k2 :: ks⟩ = false := by
          simp [isBangCell, hbang]
        by_cases hall : (k :: k2 :: ks).all permittedChar = true
        · have hsel : asLoop (⟨k :: k2 :: ks⟩ :: rest) st pl dl bg =
              asLoop rest st pl dl bg := by
            simp only [asLoop]
            rw [if_neg hbang, if_pos hall]
          rw [hsel] at hvalid ⊢
          have h := ih st pl dl bg hvalid
          simpa [List.any_cons, hds, hdp, hdd, hdb] using h
        · have hsel : asLoop (⟨k :: k2 :: ks⟩ :: rest) st pl dl bg =
              ⟨false, st, pl, dl, bg⟩ := by
            simp only [asLoop]
            rw [if_neg hbang, if_neg hall]
          rw [hsel] at hvalid
          simp at hvalid

/-! ## Access-DOT permission sets and chain analysis

`objects.AccessDOTPermissionSet` (declared in the `objects` package,
whose file is outside this snapshot; `core` and `api` only call it) is
the record of the eight permission flags carried by an access DOT, as
decoded by `objects.NewDOT`. -/

/-- The eight permission flags of an access DOT
(`objects.AccessDOTPermissionSet`). -/
structure ADPS where
  canPublish : Bool
  canConsume : Bool
  canConsumePlus : Bool
  canConsumeStar : Bool
  canTap : Bool
  canTapPlus : Bool
  canTapStar : Bool
  canList : Bool
deriving DecidableEq, Repr

/-- Modelled from the spec: `AccessDOTPermissionSet.ReduceBy` — the
`objects` package source is not in this snapshot, only its callers; the
spec says `perms = reduce(perms, C[i].permissions)` is the bitwise AND
on the permission flags (with the `+`/`*` subsumption invariant, which
an AND of two subsumption-closed sets preserves). -/
def reduceBy (a b : ADPS) : ADPS :=
  ⟨a.canPublish && b.canPublish,
   a.canConsume && b.canConsume,
   a.canConsumePlus && b.canConsumePlus,
   a.canConsumeStar && b.canConsumeStar,
   a.canTap && b.canTap,
   a.canTapPlus && b.canTapPlus,
   a.canTapStar && b.canTapStar,
   a.canList && b.canList⟩

/-- Modelled from the spec: `AccessDOTPermissionSet.IsSubsetOf` — the
chain builder requires `desired ⊆ dot.perms` (§4.3.2 rule (c)); every
flag set in `a` must be set in `b`. -/
def isSubsetOf (a b : ADPS) : Bool :=
  (!a.canPublish || b.canPublish) && (!a.canConsume || b.canConsume) &&
  (!a.canConsumePlus || b.canConsumePlus) && (!a.canConsumeStar || b.canConsumeStar) &&
  (!a.canTap || b.canTap) && (!a.canTapPlus || b.canTapPlus) &&
  (!a.canTapStar || b.canTapStar) && (!a.canList || b.canList)

/-- An access DOT as consumed by the chain analysis and the chain
builder: giver/receiver VKs and the access-URI MVK are abstracted to
`Nat` identifiers (distinct identifiers model distinct 32-byte keys),
`ttl` is the `GetTTL` value (0–255), `suffix` the access-URI suffix and
`perms` the `GetPermissionSet` flags decoded from the wire form. -/
structure DOTm where
  hash : Nat
  giver : Nat
  receiver : Nat
  ttl : Nat
  mvk : Nat
  suffix : String
  perms : ADPS
deriving DecidableEq, Repr

/-- Message type constants of `core`. -/
def TypePublish : Nat := 0x01
def TypePersist : Nat := 0x02
def TypeSubscribe : Nat := 0x03
def TypeTap : Nat := 0x04
def TypeQuery : Nat := 0x05
def TypeTapQuery : Nat := 0x06
def TypeLS : Nat := 0x07
def TypeUnsubscribe : Nat := 0x08

/-- The error kinds surfaced by `AnalyzeAccessDOTChain` (`util/bwe`). -/
inductive BWErr where
  | BadURI
  | ChainOriginNotMVK
  | TTLExpired
  | BadLink
  | OverconstrainedURI
  | BadPermissions
  | BadOperation
deriving DecidableEq, Repr

/-- The running state of the link-iteration loop of
`AnalyzeAccessDOTChain`: `tail` is the previous DOT's receiver, `ttl`
the running TTL, `uri` the merged URI so far and `ps` the reduced
permission set. -/
structure LState where
  tail : Nat
  ttl : Nat
  uri : String
  ps : ADPS
deriving DecidableEq, Repr

/-- The `for i := 1; i < dc.NumHashes(); i++` loop of
`AnalyzeAccessDOTChain`, processing the remaining DOTs of the chain.
Returns the error (`none` on success) and the final state; on an error
return the state carries the mutations already applied, exactly as the
Go named-return values do. -/
def analyzeLoop (mvk : Nat) (st : LState) : List DOTm → Option BWErr × LState
  | [] => (none, st)
  | d :: ds =>
    if st.ttl = 0 then (some .TTLExpired, st)
    else
      let ttl1 := st.ttl - 1
      let ps1 := reduceBy st.ps d.perms
      let ttl2 := if d.ttl < ttl1 then d.ttl else ttl1
      if st.tail ≠ d.giver ∨ mvk ≠ d.mvk then
        (some .BadLink, { st with ttl := ttl2, ps := ps1 })
      else
        match RestrictBy st.uri d.suffix with
        | (u, true) => analyzeLoop mvk { tail := d.receiver, ttl := ttl2, uri := u, ps := ps1 } ds
        | (_, false) => (some .OverconstrainedURI, { st with ttl := ttl2, ps := ps1 })

/-- The named-return values of `AnalyzeAccessDOTChain` (pointer/slice
results are `Option`s, `nil` = `none`). -/
structure AnalyzeRes where
  err : Option BWErr
  mvk : Option Nat
  mergeduri : Option String
  star : Bool
  plus : Bool
  ps : Option ADPS
  originVK : Option Nat
deriving DecidableEq, Repr

/-- Embeds `core.AnalyzeAccessDOTChain(mtype, targetURI, dc)` for an
elaborated chain `firstdot :: rest` (the function reads `dc.GetDOT(0)`,
so a chain has at least one DOT). -/
def AnalyzeAccessDOTChain (mtype : Nat) (targetURI : String)
    (firstdot : DOTm) (rest : List DOTm) : AnalyzeRes :=
  let head := firstdot.giver
  let tail := firstdot.receiver
  let ttl := firstdot.ttl
  match RestrictBy targetURI firstdot.suffix with
  | (_, false) =>
    ⟨some .BadURI, none, none, false, false, none, none⟩
  | (uri, true) =>
    let mvk := firstdot.mvk
    let ps0 := firstdot.perms
    if head ≠ mvk then
      ⟨some .ChainOriginNotMVK, some mvk, none, false, false, some ps0, none⟩
    else
      match analyzeLoop mvk ⟨tail, ttl, uri, ps0⟩ rest with
      | (some e, stE) =>
        ⟨some e, some mvk, none, false, false, some stE.ps, none⟩
      | (none, stOK) =>
        let r := AnalyzeSuffix stOK.uri
        if r.valid = false then
          ⟨some .OverconstrainedURI, some mvk, some stOK.uri, r.star, r.plus,
           some stOK.ps, some stOK.tail⟩
        else
          let base : AnalyzeRes :=
            ⟨none, some mvk, some stOK.uri, r.star, r.plus, some stOK.ps, some stOK.tail⟩
          if mtype = TypePublish ∨ mtype = TypePersist then
            (if ¬ stOK.ps.canPublish then { base with err := some .BadPermissions } else base)
          else if mtype = TypeQuery ∨ mtype = TypeSubscribe then
            (if ¬ stOK.ps.canConsume ∨ (r.plus ∧ ¬ stOK.ps.canConsumePlus) ∨
                (r.star ∧ ¬ stOK.ps.canConsumeStar) then
              { base with err := some .BadPermissions } else base)
          else if mtype = TypeTapQuery ∨ mtype = TypeTap then
            (if ¬ stOK.ps.canTap ∨ (r.plus ∧ ¬ stOK.ps.canTapPlus) ∨
                (r.star ∧ ¬ stOK.ps.canTapStar) then
              { base with err := some .BadPermissions } else base)
          else if mtype = TypeLS then
            (if ¬ stOK.ps.canList then { base with err := some .BadPermissions } else base)
          else
            { base with err := some .BadOperation }

/-! ### First-error characterization of the link loop

`runUpTo` re-runs the loop body silently: it yields the loop state
reached after cleanly processing a list of links, or `none` if any
error fires on the way; `linkErr` is the error the loop body raises at
one link from a given state.  `analyzeLoop_err_iff` says the loop
returns exactly the error of the first failing link. -/

/-- The state reached after processing all given links with no error
(`none` if some link errors). -/
def runUpTo (mvk : Nat) (st : LState) : List DOTm → Option LState
  | [] => some st
  | d :: ds =>
    if st.ttl = 0 then none
    else
      let ttl1 := st.ttl - 1
      let ps1 := reduceBy st.ps d.perms
      let ttl2 := if d.ttl < ttl1 then d.ttl else ttl1
      if st.tail ≠ d.giver ∨ mvk ≠ d.mvk then none
      else
        match RestrictBy st.uri d.suffix with
        | (u, true) => runUpTo mvk { tail := d.receiver, ttl := ttl2, uri := u, ps := ps1 } ds
        | (_, false) => none

/-- The error the loop body raises when processing link `d` from state
`st` (the TTL check precedes the connectivity check, which precedes the
URI restriction). -/
def linkErr (mvk : Nat) (st : LState) (d : DOTm) : Option BWErr :=
  if st.ttl = 0 then some .TTLExpired
  else if st.tail ≠ d.giver ∨ mvk ≠ d.mvk then some .BadLink
  else if (RestrictBy st.uri d.suffix).2 = false then some .OverconstrainedURI
  else none

/-- The link loop returns error `e` iff some link is reached with no
earlier error and its own checks raise `e`. -/
theorem analyzeLoop_err_iff (dots : List DOTm) : ∀ (mvk : Nat) (st : LState) (e : BWErr),
    ((analyzeLoop mvk st dots).1 = some e ↔
      ∃ i d st', dots.get? i = some d ∧ runUpTo mvk st (dots.take i) = some st' ∧
        linkErr mvk st' d = some e) := by
  induction dots with
  | nil =>
    intro mvk st e
    simp [analyzeLoop]
  | cons d ds ih =>
    intro mvk st e
    by_cases httl : st.ttl = 0
    · have hle : linkErr mvk st d = some .TTLExpired := by
        unfold linkErr
        rw [if_pos httl]
      simp only [analyzeLoop, if_pos httl]
      constructor
      · intro h
        obtain rfl : BWErr.TTLExpired = e := Option.some.inj h
        exact ⟨0, d, st, rfl, rfl, hle⟩
      · rintro ⟨i, d', st', hget, hrun, herr⟩
        cases i with
        | zero =>
          rw [List.take_zero] at hrun
          obtain rfl : st = st' := Option.some.inj hrun
          rw [List.get?_cons_zero] at hget
          obtain rfl : d = d' := Option.some.inj hget
          rw [hle] at herr
          exact herr
        | succ j =>
          rw [List.take_succ_cons] at hrun
          simp only [runUpTo, if_pos httl] at hrun
          exact absurd hrun (by simp)
    · by_cases hbadlink : st.tail ≠ d.giver ∨ mvk ≠ d.mvk
      · have hle : linkErr mvk st d = some .BadLink := by
          unfold linkErr
          rw [if_neg httl, if_pos hbadlink]
        simp only [analyzeLoop, if_neg httl, if_pos hbadlink]
        constructor
        · intro h
          obtain rfl : BWErr.BadLink = e := Option.some.inj h
          exact ⟨0, d, st, rfl, rfl, hle⟩
        · rintro ⟨i, d', st', hget, hrun, herr⟩
          cases i with
          | zero =>
            rw [List.take_zero] at hrun
            obtain rfl : st = st' := Option.some.inj hrun
            rw [List.get?_cons_zero] at hget
            obtain rfl : d = d' := Option.some.inj hget
            rw [hle] at herr
            exact herr
          | succ j =>
            rw [List.take_succ_cons] at hrun
            simp only [runUpTo, if_neg httl, if_pos hbadlink] at hrun
            exact absurd hrun (by simp)
      · rcases hR : RestrictBy st.uri d.suffix with ⟨u, ok⟩
        cases ok with
        | true =>
          have hstep : ∀ l : List DOTm, runUpTo mvk st (d :: l) =
              runUpTo mvk
                { tail := d.receiver,
                  ttl := if d.ttl < st.ttl - 1 then d.ttl else st.ttl - 1,
                  uri := u, ps := reduceBy st.ps d.perms } l := by
            intro l
            simp only [runUpTo, if_neg httl, if_neg hbadlink, hR]
          simp only [analyzeLoop, if_neg httl, if_neg hbadlink, hR]
          rw [ih]
          constructor
          · rintro ⟨j, d', st', hget, hrun, herr⟩
            refine ⟨j + 1, d', st', ?_, ?_, herr⟩
            · rw [List.get?_cons_succ]
              exact hget
            · rw [List.take_succ_cons, hstep]
              exact hrun
          · rintro ⟨i, d', st', hget, hrun, herr⟩
            cases i with
            | zero =>
              rw [List.take_zero] at hrun
              obtain rfl : st = st' := Option.some.inj hrun
              rw [List.get?_cons_zero] at hget
              obtain rfl : d = d' := Option.some.inj hget
              have hle : linkErr mvk st d = none := by
                unfold linkErr
                rw [if_neg httl, if_neg hbadlink, hR]
                simp
              rw [hle] at herr
              exact absurd herr (by simp)
            | succ j =>
              rw [List.take_succ_cons, hstep] at hrun
              rw [List.get?_cons_succ] at hget
              exact ⟨j, d', st', hget, hrun, herr⟩
        | false =>
          have hle : linkErr mvk st d = some .OverconstrainedURI := by
            unfold linkErr
            rw [if_neg httl, if_neg hbadlink, hR]
            simp
          simp only [analyzeLoop, if_neg httl, if_neg hbadlink, hR]
          constructor
          · intro h
            obtain rfl : BWErr.OverconstrainedURI = e := Option.some.inj h
            exact ⟨0, d, st, rfl, rfl, hle⟩
          · rintro ⟨i, d', st', hget, hrun, herr⟩
            cases i with
            | zero =>
              rw [List.take_zero] at hrun
              obtain rfl : st = st' := Option.some.inj hrun
              rw [List.get?_cons_zero] at hget
              obtain rfl : d = d' := Option.some.inj hget
              rw [hle] at herr
              exact herr
            | succ j =>
              rw [List.take_succ_cons] at hrun
              simp only [runUpTo, if_neg httl, if_neg hbadlink, hR] at hrun
              exact absurd hrun (by simp)

/-! ## The subscription engine (`core` terminus)

The trie maps cell labels to children and client ids to subscriptions.
Go's maps are modelled as association lists: iteration order of a Go
map is arbitrary, so only the set of entries is meaningful, and the
claims below only concern which subscriptions are visited. -/

/-- A subscription as stored in the trie (`core.subscription`): the
unique subscription id, the owning client id, and the tap flag (the
handler is opaque and not modelled). -/
structure Subm where
  subid : Nat
  client : Nat
  tap : Bool
deriving DecidableEq, Repr

/-- A node of the subscription trie (`core.snode`). -/
inductive Snode where
  | node : List (String × Snode) → List Subm → Snode

/-- Children map of a node. -/
def Snode.children : Snode → List (String × Snode)
  | .node ch _ => ch

/-- Subscription map (client id → subscription) of a node. -/
def Snode.subs : Snode → List Subm
  | .node _ subs => subs

/-- `NewSnode()`. -/
def newSnode : Snode := .node [] []

/-- `snode.addSub(parts, sub)`: walk/create children; at the leaf an
existing subscription of the same client wins (its id is returned and
the new subscription is dropped).  Returns the updated node and the
returned subscription id. -/
def addSub : Snode → List String → Subm → Snode × Nat
  | .node ch subs, [], sub =>
    match subs.find? (fun s => s.client = sub.client) with
    | some existing => (.node ch subs, existing.subid)
    | none => (.node ch (subs ++ [sub]), sub.subid)
  | .node ch subs, p :: ps, sub =>
    match ch.find? (fun e => e.1 = p) with
    | none =>
      let r := addSub newSnode ps sub
      (.node (ch ++ [(p, r.1)]) subs, r.2)
    | some e =>
      let r := addSub e.2 ps sub
      (.node (ch.map fun q => if q.1 = p then (p, r.1) else q) subs, r.2)

/-- `Terminus.AddSub(topic, s)` (the `rstree` reverse index is not
needed by the claims). -/
def AddSub (root : Snode) (topic : String) (s : Subm) : Snode × Nat :=
  addSub root (goSplit topic) s

/-- `snode.rmatchSubs(parts, visitor)`: the list of subscriptions
visited, in visiting order (exact child first, then `+`, then `*`; the
`*` child is entered once per suffix `parts[i:]` for `i < len(parts)`).
`fuel` bounds the recursion depth: the walk descends one trie level per
call, so any `fuel` larger than the trie depth gives the Go behavior
(Go needs no fuel because the tree is finite). -/
def rmatchSubs (fuel : Nat) (s : Snode) (parts : List String) : List Subm :=
  match fuel with
  | 0 => []
  | fuel + 1 =>
    match parts with
    | [] => s.subs
    | p :: ps =>
      (match s.children.find? (fun e => e.1 = p) with
       | some e => rmatchSubs fuel e.2 ps
       | none => []) ++
      (match s.children.find? (fun e => e.1 = "+") with
       | some e => rmatchSubs fuel e.2 ps
       | none => []) ++
      (match s.children.find? (fun e => e.1 = "*") with
       | some e => (List.range (p :: ps).length).flatMap
           (fun i => rmatchSubs fuel e.2 ((p :: ps).drop i))
       | none => [])

/-- `Terminus.RMatchSubs(topic, visitor)`. -/
def RMatchSubs (fuel : Nat) (root : Snode) (topic : String) : List Subm :=
  rmatchSubs fuel root (goSplit topic)

/-- One swap `l[i], l[j] = l[j], l[i]` (indices are in range in all
uses, as in the Go loop). -/
def lswap {α : Type} (l : List α) (i j : Nat) : List α :=
  match l.get? i, l.get? j with
  | some a, some b => (l.set i b).set j a
  | _, _ => l

/-- The `for i := range clientlist { j := rand.Intn(i + 1); ... }`
shuffle of `Client.Publish`, with the random draws passed explicitly:
`draws.getD i 0` models the value `rand.Intn(i+1)` returned at step
`i`. -/
def shuffleGo (draws : List Nat) (l : List Subm) : List Subm :=
  (List.range l.length).foldl (fun acc i => lswap acc i (draws.getD i 0)) l

/-- The delivery loop of `Client.Publish` (terminus.go): a non-tap
subscription is skipped when the consumer limit is set and `count` has
reached it; `count` is incremented for every delivery made, taps
included. Returns the subscriptions whose handler is invoked, in
order. -/
def deliverLoop (consumers : Nat) : Nat → List Subm → List Subm
  | _, [] => []
  | count, s :: rest =>
    if ¬ s.tap ∧ consumers ≠ 0 ∧ count ≥ consumers then
      deliverLoop consumers count rest
    else
      s :: deliverLoop consumers (count + 1) rest

/-- Embeds `Client.Publish(m)` (terminus.go): collect the matching
subscriptions, shuffle them when the message carries a consumer limit,
then run the delivery loop. -/
def Publish (fuel : Nat) (draws : List Nat) (root : Snode) (topic : String)
    (consumers : Nat) : List Subm :=
  let clientlist := RMatchSubs fuel root topic
  let shuffled := if consumers ≠ 0 then shuffleGo draws clientlist else clientlist
  deliverLoop consumers 0 shuffled

/-! ## The chain builder (`api.ChainBuilder`)

The registry is abstracted to the function `dotsFrom` giving, for each
VK, the state-annotated DOTs granted from it (`BW.GetDOTsFrom`).  The
name-resolution and result-cache steps of `Build` are external
collaborators and are not modelled; `Build` here receives the resolved
`nsvk` and URI suffix directly. -/

/-- A state-annotated DOT as returned by the resolver (`api.DOTLink`). -/
structure DOTLink where
  D : DOTm
  S : Nat
deriving DecidableEq, Repr

/-- Registry object states (`api`/`core` constants). -/
def StateUnknown : Nat := 0
def StateValid : Nat := 1
def StateExpired : Nat := 2
def StateRevoked : Nat := 3
def StateError : Nat := 4

/-- The all-zero "everybody" VK sentinel (`util.EverybodySlice`),
abstracted to identifier 0. -/
def everybodyVK : Nat := 0

/-- A chain-builder scenario (`api.scenario`). -/
structure Scenario where
  chain : List DOTm
  suffix : String
deriving DecidableEq, Repr

/-- `scenario.TTL()`: 256, decremented per hop and clamped to each
DOT's TTL (may reach −1). -/
def scenarioTTL (s : Scenario) : Int :=
  s.chain.foldl
    (fun ttl d => let t := ttl - 1; if (d.ttl : Int) < t then (d.ttl : Int) else t) 256

/-- `NewScenario(d)`. -/
def newScenario (d : DOTm) : Scenario := ⟨[d], d.suffix⟩

/-- `scenario.GetTerminalVK()` (scenario chains are nonempty in every
use). -/
def terminalVK (s : Scenario) : Nat :=
  ((s.chain.getLast?).map (fun d => d.receiver)).getD 0

/-- `scenario.AddAndClone(d)`: extend by one DOT if the URis are
compatible and the running TTL stays nonnegative. -/
def addAndClone (s : Scenario) (d : DOTm) : Option Scenario :=
  match RestrictBy s.suffix d.suffix with
  | (_, false) => none
  | (nuri, true) =>
    let rv : Scenario := ⟨s.chain ++ [d], nuri⟩
    if scenarioTTL rv < 0 then none else some rv

/-- `ChainBuilder.dotUseful(d)`: right namespace, sufficient
permissions, and the DOT's URI covers the required suffix. -/
def dotUseful (nsvk : Nat) (desperms : ADPS) (urisuffix : String) (d : DOTm) : Bool :=
  if d.mvk ≠ nsvk then false
  else if ¬ isSubsetOf desperms d.perms then false
  else
    match RestrictBy urisuffix d.suffix with
    | (nu, ok) => ok && decide (nu = urisuffix)

/-- `ChainBuilder.getOptions(from)`: the valid, useful DOTs granted
from a VK. -/
def getOptions (dotsFrom : Nat → List DOTLink) (nsvk : Nat) (desperms : ADPS)
    (urisuffix : String) (vk : Nat) : List DOTm :=
  ((dotsFrom vk).filter
    (fun dl => decide (dl.S = StateValid) && dotUseful nsvk desperms urisuffix dl.D)).map
    (fun dl => dl.D)

/-- The BFS evaluation loop of `Build`: pop the front scenario, extend
it by every option at its terminal VK, pushing complete scenarios onto
the winner list and the others onto the queue.  `fuel` bounds the
number of loop iterations (the Go loop terminates because every
scenario's TTL budget shrinks per hop). -/
def buildLoop (dotsFrom : Nat → List DOTLink) (nsvk : Nat) (desperms : ADPS)
    (urisuffix : String) (target : Nat) :
    Nat → List Scenario → List Scenario → List Scenario
  | 0, _, acc => acc
  | _ + 1, [], acc => acc
  | fuel + 1, s :: evals, acc =>
    let opts := getOptions dotsFrom nsvk desperms urisuffix (terminalVK s)
    let res := opts.foldl
      (fun (p : List Scenario × List Scenario) dt =>
        match addAndClone s dt with
        | none => p
        | some ns =>
          if terminalVK ns = target ∨ terminalVK ns = everybodyVK then
            (p.1 ++ [ns], p.2)
          else
            (p.1, p.2 ++ [ns]))
      (acc, evals)
    buildLoop dotsFrom nsvk desperms urisuffix target fuel res.2 res.1

/-- The final winner-collection loop of `ChainBuilder.Build`: a chain
is represented by its DOT-hash sequence (what `GetChainHash` hashes).
The `seen` map is created and consulted but never written in the
source, so the `!ok` test always passes and no chain is skipped; the
accumulator faithfully threads the never-growing `seen` list. -/
def dedupLoop (winners : List Scenario) : List (List Nat) :=
  (winners.foldl
    (fun (p : List (List Nat) × List (List Nat)) sc =>
      let k := sc.chain.map (fun d => d.hash)
      if p.2.contains k then p else (p.1 ++ [k], p.2))
    ([], [])).1

/-- Embeds `ChainBuilder.Build()` (minus the external result cache):
`none` models the invalid-URI error return; otherwise the returned
chains are given by their DOT-hash sequences, in emission order. -/
def Build (dotsFrom : Nat → List DOTLink) (fuel : Nat) (nsvk : Nat)
    (desperms : ADPS) (urisuffix : String) (target : Nat) :
    Option (List (List Nat)) :=
  if (AnalyzeSuffix urisuffix).valid = false then none
  else
    let initial := getOptions dotsFrom nsvk desperms urisuffix nsvk
    let start := initial.foldl
      (fun (p : List Scenario × List Scenario) dt =>
        let s := newScenario dt
        if terminalVK s = target ∨ terminalVK s = everybodyVK then
          (p.1 ++ [s], p.2)
        else
          (p.1, p.2 ++ [s]))
      ([], [])
    some (dedupLoop (buildLoop dotsFrom nsvk desperms urisuffix target fuel start.2 start.1))

/-! ## The resolution cache (`api.ResolutionData`)

`Bytes32` keys (VKs and DOT hashes) are `Nat` identifiers; Go maps are
association lists (`insertL` replaces or appends, `deleteL` removes,
missing list entries read as empty, as Go zero values do). -/

/-- Association-list lookup (Go `v, ok := m[k]`). -/
def lookupL {α : Type} (m : List (Nat × α)) (k : Nat) : Option α :=
  (m.find? (fun e => e.1 = k)).map (fun e => e.2)

/-- Association-list store (Go `m[k] = v`). -/
def insertL {α : Type} (m : List (Nat × α)) (k : Nat) (v : α) : List (Nat × α) :=
  if (m.find? (fun e => e.1 = k)).isSome then
    m.map (fun e => if e.1 = k then (k, v) else e)
  else
    m ++ [(k, v)]

/-- Association-list delete (Go `delete(m, k)`). -/
def deleteL {α : Type} (m : List (Nat × α)) (k : Nat) : List (Nat × α) :=
  m.filter (fun e => e.1 ≠ k)

/-- Go `m[k]` read of a hash-list entry (missing key reads as nil). -/
def getListL (m : List (Nat × List Nat)) (k : Nat) : List Nat :=
  (lookupL m k).getD []

/-- The resolution cache state (`api.ResolutionData`), restricted to
the maps the DOT-cache invariant concerns: the entity cache (value =
registry state), the DOT-hash cache and the two inverse indices. -/
structure RDState where
  entityCache : List (Nat × Nat)
  dotHashCache : List (Nat × (DOTm × Nat))
  dotFromInvCache : List (Nat × List Nat)
  dotToInvCache : List (Nat × List Nat)
deriving DecidableEq, Repr

/-- The empty cache (`newResolutionData`). -/
def emptyRD : RDState := ⟨[], [], [], []⟩

/-- Embeds `BW.cacheDOT(ro, s)`: store under the DOT hash; if the hash
is not in the giver's from-index, append it to both inverse indices
(the code comment asserts membership in one index implies membership in
both). -/
def cacheDOT (d : DOTm) (s : Nat) (rd : RDState) : RDState :=
  let rd1 := { rd with dotHashCache := insertL rd.dotHashCache d.hash (d, s) }
  let existing := (getListL rd1.dotFromInvCache d.giver).contains d.hash
  if existing then rd1
  else
    { rd1 with
      dotFromInvCache := insertL rd1.dotFromInvCache d.giver
        (getListL rd1.dotFromInvCache d.giver ++ [d.hash]),
      dotToInvCache := insertL rd1.dotToInvCache d.receiver
        (getListL rd1.dotToInvCache d.receiver ++ [d.hash]) }

/-- Embeds `BW.flushDOT(hash)` (lock-held variant): discard the cached
DOT; the inverse indices are left untouched. -/
def flushDOT (h : Nat) (rd : RDState) : RDState :=
  { rd with dotHashCache := deleteL rd.dotHashCache h }

/-- Embeds `BW.FlushEntity(vk)`: discard the cached entity, flush every
DOT listed in the to-index and from-index entries of `vk`, and delete
those two entries. -/
def FlushEntity (vk : Nat) (rd : RDState) : RDState :=
  let rd1 := { rd with entityCache := deleteL rd.entityCache vk }
  let rd2 := (getListL rd1.dotToInvCache vk).foldl (fun r h => flushDOT h r) rd1
  let rd3 := { rd2 with dotToInvCache := deleteL rd2.dotToInvCache vk }
  let rd4 := (getListL rd3.dotFromInvCache vk).foldl (fun r h => flushDOT h r) rd3
  { rd4 with dotFromInvCache := deleteL rd4.dotFromInvCache vk }

/-- Embeds `BW.resolveDOTFromCache(hash)` (the `ok` flag is the
`Option`). -/
def resolveDOTFromCache (h : Nat) (rd : RDState) : Option (DOTm × Nat) :=
  lookupL rd.dotHashCache h

/-- The invariant claimed of the cache: every DOT stored in the
DOT-hash cache has its hash recorded in the giver's entry of the
from-index and in the receiver's entry of the to-index. -/
def cacheInv (rd : RDState) : Prop :=
  ∀ h d s, lookupL rd.dotHashCache h = some (d, s) →
    (getListL rd.dotFromInvCache d.giver).contains h = true ∧
    (getListL rd.dotToInvCache d.receiver).contains h = true

/-! ## Wire-object parsers (`objects` package)

Byte buffers are `List Nat` (each entry one byte).  A Go slice read
that would be out of range panics at runtime; every such read in the
model yields the `panicked` outcome, and the `defer`/`recover` block
wrapping each parser maps `panicked` to an error return, exactly as the
Go code recovers panics into `NewObjectError` results.  SHA-256 is
abstracted to the identity on the hashed byte range (an injective
stand-in; no claim inspects hash values). -/

/-- Outcome of a Go parsing function: a normal return (`ok` or `err`)
or a run that panics inside the body. -/
inductive PResult (α : Type) where
  | ok : α → PResult α
  | err : String → PResult α
  | panicked : PResult α
deriving DecidableEq, Repr

/-- The `defer func() { if r := recover(); ... }` wrapper: a panic
becomes an error return. -/
def recoverP {α : Type} : PResult α → PResult α
  | .panicked => .err "recovered"
  | r => r

/-- `true` on the two normal outcomes. -/
def PResult.noPanic {α : Type} : PResult α → Bool
  | .panicked => false
  | _ => true

/-- `true` exactly on `ok`. -/
def PResult.isOk {α : Type} : PResult α → Bool
  | .ok _ => true
  | _ => false

/-- Bounds-checked slice `c[i : i+n]` (a Go slice expression past the
buffer panics). -/
def rdSlice (c : List Nat) (i n : Nat) : Option (List Nat) :=
  if i + n ≤ c.length then some ((c.drop i).take n) else none

/-- Little-endian 16-bit read at `i`. -/
def le16 (c : List Nat) (i : Nat) : Option Nat :=
  match c.get? i, c.get? (i + 1) with
  | some a, some b => some (a + 256 * b)
  | _, _ => none

/-- Little-endian 32-bit read at `i`. -/
def le32 (c : List Nat) (i : Nat) : Option Nat :=
  match le16 c i, le16 c (i + 2) with
  | some a, some b => some (a + 65536 * b)
  | _, _ => none

/-- Little-endian 64-bit read at `i`. -/
def le64 (c : List Nat) (i : Nat) : Option Nat :=
  match le32 c i, le32 c (i + 4) with
  | some a, some b => some (a + 4294967296 * b)
  | _, _ => none

/-- Routing-object tag constants (`objects`). -/
def ROAccessDChainHash : Nat := 0x01
def ROPermissionDChainHash : Nat := 0x11
def ROAccessDChain : Nat := 0x02
def ROPermissionDChain : Nat := 0x12
def ROAccessDOT : Nat := 0x20
def ROPermissionDOT : Nat := 0x21

/-- A parsed DChain (`objects.DChain`); `dots` is modelled by the
number of slots `len(content)/32`. -/
structure DChainm where
  dothashes : List Nat
  chainhash : List Nat
  isAccess : Bool
  ronum : Nat
  elaborated : Bool
  numdots : Nat
deriving DecidableEq, Repr

/-- Body of `objects.NewDChain(ronum, content)` before recovery (the
`default` arm of the switch is a Go `panic`). -/
def newDChainRaw (ronum : Nat) (content : List Nat) : PResult DChainm :=
  if ronum = ROAccessDChain ∨ ronum = ROPermissionDChain then
    if content.length % 32 ≠ 0 ∨ content.length = 0 then
      .err "Wrong content length"
    else
      .ok ⟨content, content, ronum = 0x02, ronum, true, content.length / 32⟩
  else if ronum = ROAccessDChainHash ∨ ronum = ROPermissionDChainHash then
    if content.length ≠ 32 then
      .err "Wrong content length"
    else
      .ok ⟨[], content, ronum = 0x01, ronum, false, 0⟩
  else
    .panicked

/-- Embeds `objects.NewDChain` (with its recover wrapper). -/
def NewDChain (ronum : Nat) (content : List Nat) : PResult DChainm :=
  recoverP (newDChainRaw ronum content)

/-- A parsed DOT in wire form (`objects.DOT` as filled by `NewDOT`);
times are kept as the raw ms-epoch integers. -/
structure DOTw where
  giverVK : List Nat
  receiverVK : List Nat
  ttl : Nat
  pubLim : Option (Nat × Nat × Nat)
  created : Option Nat
  expires : Option Nat
  revokers : List (List Nat)
  contact : List Nat
  comment : List Nat
  isAccess : Bool
  perms : ADPS
  mvk : List Nat
  uriSuffix : List Nat
  kv : List (List Nat × List Nat)
  hash : List Nat
  signature : List Nat
deriving DecidableEq, Repr

/-- The empty `DOTw` being filled in. -/
def dotw0 (giver receiver : List Nat) (ttl : Nat) : DOTw :=
  ⟨giver, receiver, ttl, none, none, none, [], [], [], false,
   ⟨false, false, false, false, false, false, false, false⟩, [], [], [], [], []⟩

/-- The TLV header loop of `objects.NewDOT`: each continuing case
advances `idx` by at least one, so `fuel = content.length + 1` steps
suffice (fuel exhaustion is unreachable and marked `panicked`).
Returns the index just past the `0x00` terminator and the accumulated
fields. -/
def dotTLV (content : List Nat) : Nat → Nat → DOTw → PResult (Nat × DOTw)
  | 0, _, _ => .panicked
  | fuel + 1, idx, acc =>
    match content.get? idx with
    | none => .panicked
    | some 0x00 => .ok (idx + 1, acc)
    | some 0x01 =>
      match content.get? (idx + 1) with
      | none => .panicked
      | some ln =>
        if ln ≠ 17 then .err "Invalid publim in DoT"
        else
          match le64 content (idx + 2), le64 content (idx + 10),
              content.get? (idx + 18) with
          | some tx, some store, some retain =>
            dotTLV content fuel (idx + 19) { acc with pubLim := some (tx, store, retain) }
          | _, _, _ => .panicked
    | some 0x02 =>
      match content.get? (idx + 1) with
      | none => .panicked
      | some ln =>
        if ln ≠ 8 then .err "Invalid creation date in DoT"
        else
          match le64 content (idx + 2) with
          | some t => dotTLV content fuel (idx + 10) { acc with created := some t }
          | none => .panicked
    | some 0x03 =>
      match content.get? (idx + 1) with
      | none => .panicked
      | some ln =>
        if ln ≠ 8 then .err "Invalid expiry date in DoT"
        else
          match le64 content (idx + 2) with
          | some t => dotTLV content fuel (idx + 10) { acc with expires := some t }
          | none => .panicked
    | some 0x04 =>
      match content.get? (idx + 1) with
      | none => .panicked
      | some ln =>
        if ln ≠ 8 then .err "Invalid delegated revoker in DoT"
        else
          match rdSlice content (idx + 2) 32 with
          | some rv => dotTLV content fuel (idx + 34) { acc with revokers := acc.revokers ++ [rv] }
          | none => .panicked
    | some 0x05 =>
      match content.get? (idx + 1) with
      | none => .panicked
      | some ln =>
        match rdSlice content (idx + 2) ln with
        | some ct => dotTLV content fuel (idx + 2 + ln) { acc with contact := ct }
        | none => .panicked
    | some 0x06 =>
      match content.get? (idx + 1) with
      | none => .panicked
      | some ln =>
        match rdSlice content (idx + 2) ln with
        | some cm => dotTLV content fuel (idx + 2 + ln) { acc with comment := cm }
        | none => .panicked
    | some _ =>
      match content.get? (idx + 1) with
      | none => .panicked
      | some ln => dotTLV content fuel (idx + ln + 1) acc

/-- The key-value loop of the permission-DOT tail of `NewDOT`:
`keylen = 0` terminates; each entry advances `idx` by
`3 + keylen + vallen ≥ 4`, so `fuel = content.length + 1` suffices. -/
def dotKV (content : List Nat) : Nat → Nat → List (List Nat × List Nat) →
    PResult (Nat × List (List Nat × List Nat))
  | 0, _, _ => .panicked
  | fuel + 1, idx, acc =>
    match content.get? idx with
    | none => .panicked
    | some 0 => .ok (idx + 1, acc)
    | some keylen =>
      match rdSlice content (idx + 1) keylen with
      | none => .panicked
      | some key =>
        match le16 content (idx + 1 + keylen) with
        | none => .panicked
        | some vlen =>
          match rdSlice content (idx + 3 + keylen) vlen with
          | none => .panicked
          | some val => dotKV content fuel (idx + 3 + keylen + vlen) (acc ++ [(key, val)])

/-- The permission-bit decoding of `NewDOT` (each `*` bit implies the
`+` and plain bits, each `+` bit the plain bit). -/
def decodePerm (perm : Nat) : ADPS :=
  ⟨perm / 64 % 2 = 1,
   perm % 2 = 1 ∨ perm / 2 % 2 = 1 ∨ perm / 4 % 2 = 1,
   perm / 2 % 2 = 1 ∨ perm / 4 % 2 = 1,
   perm / 4 % 2 = 1,
   perm / 8 % 2 = 1 ∨ perm / 16 % 2 = 1 ∨ perm / 32 % 2 = 1,
   perm / 16 % 2 = 1 ∨ perm / 32 % 2 = 1,
   perm / 32 % 2 = 1,
   perm / 128 % 2 = 1⟩

/-- Body of `objects.NewDOT(ronum, content)` before recovery. -/
def newDOTRaw (ronum : Nat) (content : List Nat) : PResult DOTw :=
  match rdSlice content 0 32, rdSlice content 32 32, content.get? 64 with
  | some giver, some receiver, some ttl =>
    match dotTLV content (content.length + 1) 65 (dotw0 giver receiver ttl) with
    | .panicked => .panicked
    | .err m => .err m
    | .ok (idx, acc) =>
      if ronum = ROAccessDOT then
        match le16 content idx with
        | none => .panicked
        | some perm =>
          match rdSlice content (idx + 2) 32 with
          | none => .panicked
          | some mvk =>
            match le16 content (idx + 34) with
            | none => .panicked
            | some ln =>
              match rdSlice content (idx + 36) ln with
              | none => .panicked
              | some sfx =>
                let fin := idx + 36 + ln
                match rdSlice content fin 64 with
                | none => .panicked
                | some sig =>
                  .ok { acc with
                        isAccess := true, perms := decodePerm perm, mvk := mvk,
                        uriSuffix := sfx, hash := content.take fin, signature := sig }
      else if ronum = ROPermissionDOT then
        match dotKV content (content.length + 1) idx [] with
        | .panicked => .panicked
        | .err m => .err m
        | .ok (fin, kv) =>
          match rdSlice content fin 64 with
          | none => .panicked
          | some sig =>
            .ok { acc with kv := kv, hash := content.take fin, signature := sig }
      else
        .err "Unknown RONum"
  | _, _, _ => .panicked

/-- Embeds `objects.NewDOT` (with its recover wrapper). -/
def NewDOT (ronum : Nat) (content : List Nat) : PResult DOTw :=
  recoverP (newDOTRaw ronum content)

/-- `objects.SaneObjectSize`: 16 MiB. -/
def SaneObjectSize : Nat := 16 * 1024 * 1024

/-- A loaded framed object. -/
inductive BWObj where
  | chain : DChainm → BWObj
  | dot : DOTw → BWObj
deriving DecidableEq, Repr

/-- Embeds `objects.LoadBosswaveObject(s)` over a byte stream: read the
8-byte header, bounds-check the length against the sanity cap, read the
body and dispatch on `RoutingObjectConstructor` (tags `0x01`, `0x11`,
`0x02`, `0x12` → `NewDChain`; `0x20` → `NewDOT`).  A short stream is a
reader error. -/
def LoadBosswaveObject (stream : List Nat) : PResult BWObj :=
  match rdSlice stream 0 8 with
  | none => .err "read error"
  | some _ =>
    match le32 stream 0, le32 stream 4 with
    | some onum, some ln =>
      if ln > SaneObjectSize then .err "Object is of insane size"
      else
        match rdSlice stream 8 ln with
        | none => .err "read error"
        | some buf =>
          if onum % 4294967296 / 256 = 0 then
            if onum = 0x01 ∨ onum = 0x11 ∨ onum = 0x02 ∨ onum = 0x12 then
              match NewDChain onum buf with
              | .ok dc => .ok (.chain dc)
              | .err m => .err m
              | .panicked => .panicked
            else if onum = 0x20 then
              match NewDOT onum buf with
              | .ok d => .ok (.dot d)
              | .err m => .err m
              | .panicked => .panicked
            else
              .err "No such routing object constructor"
          else
            .err "No constructor for this object type yet"
    | _, _ => .err "read error"

/-! ## The claims

Concrete instances used by the claim theorems. -/

/-- The permission set `C*T` (consume-star with its subsumed flags, plus
tap). -/
def permCstarT : ADPS := ⟨false, true, true, true, true, false, false, false⟩

/-- The permission set `C` (plain consume). -/
def permC : ADPS := ⟨false, true, false, false, false, false, false, false⟩

/-- The full permission set. -/
def permFull : ADPS := ⟨true, true, true, true, true, true, true, true⟩

/-- C1's first link: the namespace key (VK 0) grants A (VK 1) the
permissions `C*T` on suffix `a/*`. -/
def d1 : DOTm := ⟨1, 0, 1, 1, 0, "a/*", permCstarT⟩

/-- C1's second link: A (VK 1) grants B (VK 2) the permission `C` on
suffix `a/b/+`. -/
def d2 : DOTm := ⟨2, 1, 2, 0, 0, "a/b/+", permC⟩

/-- A TTL-3 chain of five DOTs 0→1→2→3→4→5 on suffix `a`, namespace
VK 0, full permissions (C2's scenario). -/
def e0 : DOTm := ⟨10, 0, 1, 3, 0, "a", permFull⟩

/-- Second DOT of the TTL-3 chain. -/
def e1 : DOTm := ⟨11, 1, 2, 3, 0, "a", permFull⟩

/-- Third DOT of the TTL-3 chain. -/
def e2 : DOTm := ⟨12, 2, 3, 3, 0, "a", permFull⟩

/-- Fourth DOT of the TTL-3 chain. -/
def e3 : DOTm := ⟨13, 3, 4, 3, 0, "a", permFull⟩

/-- Fifth DOT of the TTL-3 chain. -/
def e4 : DOTm := ⟨14, 4, 5, 3, 0, "a", permFull⟩

/-- A single DOT whose giver (VK 1) differs from its MVK (VK 2) and whose
suffix `y` is incompatible with the target `x` (C3's counterexample). -/
def cCE0 : DOTm := ⟨20, 1, 2, 5, 2, "y", permFull⟩

/-- C5's subscription patterns, id'd 1–7. -/
def pats : List (String × Nat) :=
  [("a/+/c", 1), ("a/b/+", 2), ("*/c", 3), ("a/*", 4), ("*", 5), ("a/b", 6), ("a/b/c/d", 7)]

/-- The trie holding a subscription (subid = client = the pattern id,
non-tap) under each of C5's patterns, inserted in order. -/
def trie5 : Snode :=
  pats.foldl (fun root p => (AddSub root p.1 ⟨p.2, p.2, false⟩).1) newSnode

/-- The trie of C4: three non-tap subscriptions (ids 1–3) and one tap
subscription (id 4), all on topic `a`, distinct clients. -/
def trie4 : Snode :=
  ([⟨1, 1, false⟩, ⟨2, 2, false⟩, ⟨3, 3, false⟩, ⟨4, 4, true⟩] : List Subm).foldl
    (fun root s => (AddSub root "a" s).1) newSnode

/-- A valid DOT from the namespace VK 1 straight to the target VK 5,
granting `C` on `a` (C8's scenario). -/
def dupDOT : DOTm := ⟨7, 1, 5, 5, 1, "a", permC⟩

/-- A registry in which the namespace VK grants `dupDOT` twice (two
valid registry rows with the same DOT — e.g. the same DOT resolved via
two routes), so `Build` reaches the same winning chain twice. -/
def dotsFromDup : Nat → List DOTLink :=
  fun vk => if vk = 1 then [⟨dupDOT, 1⟩, ⟨dupDOT, 1⟩] else []

/-- The cached DOT of C10: hash 10, giver VK 1, receiver VK 2. -/
def cacheD : DOTm := ⟨10, 1, 2, 5, 1, "a", permC⟩

/-- The cache state after `cacheDOT cacheD`, `FlushEntity 2` (the
receiver), and `cacheDOT cacheD` again. -/
def rdTwice : RDState :=
  cacheDOT cacheD StateValid (FlushEntity 2 (cacheDOT cacheD StateValid emptyRD))

/-- The suffix-validity predicate as claim C7's sentence words it, for
comparison with the code's `AnalyzeSuffix`: this definition follows the
SPEC's words, not the source.  The spec lists only per-cell conditions
(no empty cell, `!` only leading a longer cell, only permitted
characters — which is `cellOK`) plus the bound of one `*` cell; it
states no bound on the number of `!` cells. -/
def specSuffixValid (s : String) : Bool :=
  (goSplit s).all cellOK && decide ((goSplit s).countP (fun c => c = "*") ≤ 1)

/-- A recovered parser run never ends in the panic outcome. -/
theorem recoverP_noPanic {α : Type} (r : PResult α) : (recoverP r).noPanic = true := by
  cases r <;> rfl

/-- A recovered parser run is never the panic outcome. -/
theorem recoverP_ne_panicked {α : Type} (r : PResult α) :
    recoverP r ≠ PResult.panicked := by
  cases r <;> simp [recoverP]

/-- The per-link error is `TTLExpired` exactly when the link is reached
with running TTL zero. -/
theorem linkErr_ttl_iff (mvk : Nat) (st : LState) (d : DOTm) :
    (linkErr mvk st d = some .TTLExpired ↔ st.ttl = 0) := by
  constructor
  · intro h3
    by_cases ht : st.ttl = 0
    · exact ht
    · exfalso
      unfold linkErr at h3
      rw [if_neg ht] at h3
      split at h3
      · exact absurd h3 (by simp)
      · split at h3
        · exact absurd h3 (by simp)
        · exact absurd h3 (by simp)
  · intro ht
    unfold linkErr
    rw [if_pos ht]

/-- The per-link error is `BadLink` exactly when the link is reached with
nonzero running TTL and the connectivity check fails. -/
theorem linkErr_badlink_iff (mvk : Nat) (st : LState) (d : DOTm) :
    (linkErr mvk st d = some .BadLink ↔
      st.ttl ≠ 0 ∧ (st.tail ≠ d.giver ∨ mvk ≠ d.mvk)) := by
  constructor
  · intro h3
    unfold linkErr at h3
    by_cases ht : st.ttl = 0
    · rw [if_pos ht] at h3
      exact absurd h3 (by simp)
    · rw [if_neg ht] at h3
      by_cases hb : st.tail ≠ d.giver ∨ mvk ≠ d.mvk
      · exact ⟨ht, hb⟩
      · rw [if_neg hb] at h3
        split at h3
        · exact absurd h3 (by simp)
        · exact absurd h3 (by simp)
  · rintro ⟨ht, hb⟩
    unfold linkErr
    rw [if_neg ht, if_pos hb]

/-- C1: for the two-link chain in which the namespace key (VK 0) grants
A the permissions `C*T` on `a/*` and A grants B the permission `C` on
`a/b/+`, chain analysis (against the whole namespace `*`) yields merged
permission exactly `C` and merged URI `a/b/+`; a Subscribe on `a/b/x`
passes with no error, a Publish on `a/b/x` fails `BadPermissions`. -/
theorem C1_two_link_chain :
    (AnalyzeAccessDOTChain TypeSubscribe "*" d1 [d2]).ps = some permC ∧
    (AnalyzeAccessDOTChain TypeSubscribe "*" d1 [d2]).mergeduri = some "a/b/+" ∧
    (AnalyzeAccessDOTChain TypeSubscribe "a/b/x" d1 [d2]).err = none ∧
    (AnalyzeAccessDOTChain TypePublish "a/b/x" d1 [d2]).err = some .BadPermissions := by
  refine ⟨by decide, by decide, by decide, by decide⟩

/-- C2 (amended): the all-TTL-3 chain of length 4 validates without
error — the TTL budget reaches exactly 0 after its three links — while
the corresponding length-5 chain fails `TTLExpired`; in general the
loop raises `TTLExpired` exactly when some link is reached, all earlier
links clean, with running TTL zero (the value at which the Go
pre-decrement would go negative). -/
theorem C2_ttl_amended :
    (AnalyzeAccessDOTChain TypeSubscribe "a" e0 [e1, e2, e3]).err = none ∧
    (AnalyzeAccessDOTChain TypeSubscribe "a" e0 [e1, e2, e3, e4]).err = some .TTLExpired ∧
    (∀ (mvk : Nat) (st : LState) (dots : List DOTm),
      ((analyzeLoop mvk st dots).1 = some .TTLExpired ↔
        ∃ i d st', dots.get? i = some d ∧ runUpTo mvk st (dots.take i) = some st' ∧
          st'.ttl = 0)) := by
  refine ⟨by decide, by decide, ?_⟩
  intro mvk st dots
  rw [analyzeLoop_err_iff]
  constructor
  · rintro ⟨i, d, st', h1, h2, h3⟩
    exact ⟨i, d, st', h1, h2, (linkErr_ttl_iff mvk st' d).1 h3⟩
  · rintro ⟨i, d, st', h1, h2, h3⟩
    exact ⟨i, d, st', h1, h2, (linkErr_ttl_iff mvk st' d).2 h3⟩

/-- C2's counterexample: the spec's length-4 all-TTL-3 chain does NOT
fail `TTLExpired` — it validates with no error (only a fifth DOT
expires). -/
theorem C2_counterexample :
    (AnalyzeAccessDOTChain TypeSubscribe "a" e0 [e1, e2, e3]).err ≠ some .TTLExpired ∧
    (AnalyzeAccessDOTChain TypeSubscribe "a" e0 [e1, e2, e3]).err = none := by
  refine ⟨by decide, by decide⟩

/-- C3 (amended): the link loop returns `BadLink` exactly when some link
is reached with all earlier links clean, its running TTL is nonzero (a
zero TTL at the same link yields `TTLExpired` instead), and the
connectivity check fails — the previous receiver differs from the
giver, or the DOT's access-URI MVK differs from the chain MVK; and when
the target URI restricts successfully against the first DOT's suffix
but the first DOT's giver differs from its MVK, the analysis returns
`ChainOriginNotMVK`. -/
theorem C3_badlink_amended :
    (∀ (mvk : Nat) (st : LState) (dots : List DOTm),
      ((analyzeLoop mvk st dots).1 = some .BadLink ↔
        ∃ i d st', dots.get? i = some d ∧ runUpTo mvk st (dots.take i) = some st' ∧
          st'.ttl ≠ 0 ∧ (st'.tail ≠ d.giver ∨ mvk ≠ d.mvk))) ∧
    (∀ (mtype : Nat) (target : String) (d0 : DOTm) (rest : List DOTm),
      (RestrictBy target d0.suffix).2 = true ∧ d0.giver ≠ d0.mvk →
        (AnalyzeAccessDOTChain mtype target d0 rest).err = some .ChainOriginNotMVK) := by
  constructor
  · intro mvk st dots
    rw [analyzeLoop_err_iff]
    constructor
    · rintro ⟨i, d, st', h1, h2, h3⟩
      exact ⟨i, d, st', h1, h2, (linkErr_badlink_iff mvk st' d).1 h3⟩
    · rintro ⟨i, d, st', h1, h2, h3⟩
      exact ⟨i, d, st', h1, h2, (linkErr_badlink_iff mvk st' d).2 h3⟩
  · rintro mtype target d0 rest ⟨hrb, hg⟩
    rcases hR : RestrictBy target d0.suffix with ⟨u, ok⟩
    rw [hR] at hrb
    simp only at hrb
    subst hrb
    unfold AnalyzeAccessDOTChain
    rw [hR]
    simp only [if_pos hg]

/-- C3's counterexample: for a one-DOT chain whose giver (VK 1) differs
from its MVK (VK 2) but whose suffix `y` is incompatible with the
target `x`, the analysis returns `BadURI`, not `ChainOriginNotMVK` —
the initial URI restriction precedes the origin check. -/
theorem C3_counterexample :
    cCE0.giver ≠ cCE0.mvk ∧
    (AnalyzeAccessDOTChain TypeSubscribe "x" cCE0 []).err = some .BadURI ∧
    (AnalyzeAccessDOTChain TypeSubscribe "x" cCE0 []).err ≠ some .ChainOriginNotMVK := by
  refine ⟨by decide, by decide, by decide⟩

/-- C4's divergence, evaluated: on topic `a` with three non-tap
subscriptions and one tap subscription and consumer limit 2, when the
shuffle happens to place the tap first (draws 0,0,0,0 of
`rand.Intn(i+1)`), the delivery loop counts the tap delivery against
the limit and only ONE of the three non-taps receives the message — not
the claimed min(2, 3) = 2. -/
theorem C4_consumer_limit_bug :
    ((RMatchSubs 10 trie4 "a").filter (fun s => !s.tap)).length = 3 ∧
    (Publish 10 [0, 0, 0, 0] trie4 "a" 2).map (fun s => (s.subid, s.tap)) =
      [(4, true), (1, false)] ∧
    ((Publish 10 [0, 0, 0, 0] trie4 "a" 2).filter (fun s => !s.tap)).length = 1 := by
  refine ⟨by decide, by decide, by decide⟩

/-- C5's divergence, evaluated: matching `a/b/c` against the trie
holding subscriptions under `a/+/c` (1), `a/b/+` (2), `*/c` (3), `a/*`
(4), `*` (5), `a/b` (6) and `a/b/c/d` (7) visits exactly the
subscriptions 2, 1, 3: the `*`-child walk of `rmatchSubs` iterates `i`
over `0 ≤ i < len(parts)` and never passes the empty remainder, so the
star leaves holding 4 and 5 are never reached (6 and 7 are rightly not
visited). -/
theorem C5_trie_match_bug :
    (RMatchSubs 10 trie5 "a/b/c").map (fun s => s.subid) = [2, 1, 3] := by
  decide

/-- C6: `RestrictBy` is commutative on ALL suffix strings (a fortiori
on the ones `AnalyzeSuffix` accepts), and on equal arguments it
succeeds returning the argument itself. -/
theorem C6_restrictby_comm_idem :
    (∀ a b : String, RestrictBy a b = RestrictBy b a) ∧
    (∀ a : String, RestrictBy a a = (a, true)) :=
  ⟨RestrictBy_comm, RestrictBy_self⟩

/-- C7 (amended): `AnalyzeSuffix` accepts a suffix exactly when every
cell is well formed in isolation (nonempty, `!` only leading a longer
cell, only permitted characters), at most one cell is `*`, AND at most
one cell starts with `!` (the bound the claim's list of rejection
causes omits); on accepted suffixes the four feature flags report
exactly which features occur. -/
theorem C7_suffix_validity_amended :
    ∀ s : String,
      ((AnalyzeSuffix s).valid = true ↔
        (∀ c ∈ goSplit s, cellOK c = true) ∧
        (goSplit s).countP (fun c => c = "*") ≤ 1 ∧
        (goSplit s).countP isBangCell ≤ 1) ∧
      ((AnalyzeSuffix s).valid = true →
        (AnalyzeSuffix s).star = (goSplit s).any (fun c => c = "*") ∧
        (AnalyzeSuffix s).plus = (goSplit s).any (fun c => c = "+") ∧
        (AnalyzeSuffix s).dollar = (goSplit s).any (fun c => c = "$") ∧
        (AnalyzeSuffix s).bang = (goSplit s).any isBangCell) := by
  intro s
  constructor
  · have h := asLoop_valid_iff (goSplit s) false false false false
    simpa [AnalyzeSuffix] using h
  · intro hv
    have h := asLoop_flags (goSplit s) false false false false
      (by simpa [AnalyzeSuffix] using hv)
    simpa [AnalyzeSuffix] using h

/-- C7's counterexample: `!a/!b` satisfies every rejection-free
condition the claim lists (both cells well formed, no `*`, no stray
`!`, only permitted characters) yet `AnalyzeSuffix` rejects it — the
code also bounds the number of `!` cells by one. -/
theorem C7_counterexample :
    specSuffixValid "!a/!b" = true ∧ (AnalyzeSuffix "!a/!b").valid = false := by
  refine ⟨by decide, by decide⟩

/-- C8's divergence, evaluated: with the namespace key granting the
same valid target-reaching DOT (hash 7) twice, `Build` returns the
chain `[7]` TWICE — the `seen` map of the dedup loop is never written,
so equal chain hashes are not collapsed. -/
theorem C8_build_dedup_bug :
    Build dotsFromDup 10 1 permC "a" 5 = some [[7], [7]] := by
  decide

/-- C9: the wire parsers are total — `NewDOT`, `NewDChain` and
`LoadBosswaveObject` never end in the panic outcome on any input (every
in-body panic is recovered into an error return) — and a full-form
DChain body is accepted exactly when its length is a nonzero multiple
of 32 bytes. -/
theorem C9_parser_totality :
    (∀ (ronum : Nat) (content : List Nat), (NewDOT ronum content).noPanic = true) ∧
    (∀ (ronum : Nat) (content : List Nat), (NewDChain ronum content).noPanic = true) ∧
    (∀ stream : List Nat, (LoadBosswaveObject stream).noPanic = true) ∧
    (∀ content : List Nat,
      ((NewDChain ROAccessDChain content).isOk = true ↔
        content.length % 32 = 0 ∧ content.length ≠ 0)) ∧
    (∀ content : List Nat,
      ((NewDChain ROPermissionDChain content).isOk = true ↔
        content.length % 32 = 0 ∧ content.length ≠ 0)) := by
  have hchain : ∀ (ronum : Nat) (content : List Nat),
      (NewDChain ronum content).noPanic = true :=
    fun ronum content => recoverP_noPanic (newDChainRaw ronum content)
  have hdot : ∀ (ronum : Nat) (content : List Nat),
      (NewDOT ronum content).noPanic = true :=
    fun ronum content => recoverP_noPanic (newDOTRaw ronum content)
  have hfull : ∀ (ronum : Nat), ronum = ROAccessDChain ∨ ronum = ROPermissionDChain →
      ∀ content : List Nat,
      ((NewDChain ronum content).isOk = true ↔
        content.length % 32 = 0 ∧ content.length ≠ 0) := by
    intro ronum hro content
    unfold NewDChain newDChainRaw
    rw [if_pos hro]
    by_cases h : content.length % 32 ≠ 0 ∨ content.length = 0
    · rw [if_pos h]
      constructor
      · intro hk
        exact absurd hk (by decide)
      · rintro ⟨h1, h2⟩
        rcases h with h | h
        · exact absurd h1 h
        · exact absurd h h2
    · rw [if_neg h]
      push_neg at h
      exact ⟨fun _ => h, fun _ => rfl⟩
  refine ⟨hdot, hchain, ?_, hfull ROAccessDChain (Or.inl rfl),
    hfull ROPermissionDChain (Or.inr rfl)⟩
  intro stream
  unfold LoadBosswaveObject
  repeat' split
  all_goals try rfl
  all_goals exact absurd (by assumption) (recoverP_ne_panicked _)

/-- C10's divergence, evaluated: caching the DOT (hash 10, giver VK 1,
receiver VK 2), flushing entity 2, and caching the same DOT again
leaves the cache with the DOT present in the hash cache but its hash
absent from the receiver's to-index entry — `cacheDOT` consults only
the giver's from-index (which the flush did not touch) before skipping
the index insertions — so the invariant fails and a second
`FlushEntity 2` misses the DOT: the lookup still hits. -/
theorem C10_cache_flush_bug :
    lookupL rdTwice.dotHashCache 10 = some (cacheD, StateValid) ∧
    (getListL rdTwice.dotToInvCache 2).contains 10 = false ∧
    ¬ cacheInv rdTwice ∧
    resolveDOTFromCache 10 (FlushEntity 2 rdTwice) = some (cacheD, StateValid) := by
  refine ⟨by decide, by decide, ?_, by decide⟩
  intro hinv
  have h := (hinv 10 cacheD StateValid (by decide)).2
  revert h
  decide

end BW2



